import Mathlib

/-
Shallow embedding of the RusticDB document store core (src/src/main.rs):
JSON-like values, the query lexer and parser, the per-condition evaluator,
the full-scan search executor, and the document-store put/get layer.

Modelling conventions, each noted again at the definition it concerns:
* Rust panics (every `.unwrap()` and the `panic!` branch) are modelled as
  distinguished `abort…` constructors of the result types, so that an abort
  is observably different from every reported outcome.
* The byte level of the key-value engine is modelled up to JSON
  parseability: a stored byte string either parses to exactly one value
  tree or fails to parse, so a raw record is `Option Value` (`some v` for
  bytes that deserialize to `v`, `none` for unparsable bytes).
* JSON numbers are restricted to integers, the only numerals the
  evaluator's i32 parse can ever accept.
-/

namespace RusticDB

/-- JSON-like value trees (serde_json::Value with integer numerals). -/
inductive Value where
  | null
  | bool (b : Bool)
  | num (n : Int)
  | str (s : String)
  | arr (elems : List Value)
  | obj (fields : List (String × Value))

/-- The double-quote character. -/
def quoteChar : Char := Char.ofNat 34

/-- The backslash character. -/
def backslashChar : Char := Char.ofNat 92

/-- Value::is_null. -/
def Value.isNull : Value → Bool
  | .null => true
  | _ => false

/-- Map::get on an object's field list: first binding of the key
    (keys of a serde map are unique). -/
def lookupFields : List (String × Value) → String → Option Value
  | [], _ => none
  | (k, v) :: rest, key => if k = key then some v else lookupFields rest key

/-- Value::get(&str): field lookup on objects, None on every other node. -/
def Value.getKey : Value → String → Option Value
  | .obj fields, key => lookupFields fields key
  | _, _ => none

/-- str::split('.') on the character list: the dot separates, consecutive
    dots and edge dots produce empty segments, the empty input gives one
    empty segment. -/
def splitDotChars : List Char → List (List Char)
  | [] => [[]]
  | c :: rest =>
    if c = '.' then [] :: splitDotChars rest
    else
      match splitDotChars rest with
      | [] => [[c]]
      | h :: t => (c :: h) :: t

/-- str::split('.') on a string. -/
def splitDot (s : String) : List String := (splitDotChars s.toList).map String.mk

/-- str::trim: drop whitespace from both ends. -/
def trimChars (s : String) : String :=
  String.mk (((s.toList.dropWhile Char.isWhitespace).reverse.dropWhile
    Char.isWhitespace).reverse)

/-- get_value_from_doc (main.rs 130-146): walk the parts, trimming each,
    skipping empty parts, descending by object-key lookup; a missing key or
    a non-object node yields Null immediately. -/
def get_value_from_doc : Value → List String → Value
  | doc, [] => doc
  | doc, part :: rest =>
    let p := trimChars part
    if p.isEmpty then get_value_from_doc doc rest
    else
      match doc.getKey p with
      | none => Value.null
      | some v => get_value_from_doc v rest

/-- JSON string escaping as serde_json emits it: quote and backslash get a
    backslash, control characters use the two-letter escapes or \u00XX. -/
def escapeChar (c : Char) : List Char :=
  if c = quoteChar then [backslashChar, quoteChar]
  else if c = backslashChar then [backslashChar, backslashChar]
  else if c.toNat < 32 then
    if c = Char.ofNat 8 then [backslashChar, 'b']
    else if c = Char.ofNat 9 then [backslashChar, 't']
    else if c = Char.ofNat 10 then [backslashChar, 'n']
    else if c = Char.ofNat 12 then [backslashChar, 'f']
    else if c = Char.ofNat 13 then [backslashChar, 'r']
    else
      [backslashChar, 'u', '0', '0',
       (Nat.digitChar (c.toNat / 16)), (Nat.digitChar (c.toNat % 16))]
  else [c]

/-- Serialize a string with surrounding quotes, escaping its characters. -/
def encodeJsonString (s : String) : String :=
  String.mk (quoteChar :: (s.toList.flatMap escapeChar) ++ [quoteChar])

mutual

/-- Display/to_string of a serde_json::Value (compact form). -/
def valueToString : Value → String
  | .null => "null"
  | .bool b => if b then "true" else "false"
  | .num n => toString n
  | .str s => encodeJsonString s
  | .arr xs => "[" ++ arrBody xs ++ "]"
  | .obj fs => "\x7b" ++ objBody fs ++ "\x7d"

/-- Comma-separated serialization of array elements. -/
def arrBody : List Value → String
  | [] => ""
  | [v] => valueToString v
  | v :: vs => valueToString v ++ "," ++ arrBody vs

/-- Comma-separated serialization of object fields. -/
def objBody : List (String × Value) → String
  | [] => ""
  | [(k, v)] => encodeJsonString k ++ ":" ++ valueToString v
  | (k, v) :: fs => encodeJsonString k ++ ":" ++ valueToString v ++ "," ++ objBody fs

end

/-- str::trim_matches of the double-quote character: strip every leading
    and trailing quote. -/
def trimQuotes (s : String) : String :=
  String.mk (((s.toList.dropWhile (· == quoteChar)).reverse.dropWhile
    (· == quoteChar)).reverse)

/-- Numeric value of a run of decimal digits; none when empty or when any
    character is not a digit. -/
def digitsVal? (cs : List Char) : Option Nat :=
  if cs.isEmpty then none
  else if cs.all Char.isDigit then
    some (cs.foldl (fun acc c => acc * 10 + (c.toNat - 48)) 0)
  else none

/-- str::parse::<i32>: optional sign, one or more digits, i32 range check. -/
def parseI32 (s : String) : Option Int :=
  match s.toList with
  | [] => none
  | c :: rest =>
    if c = '+' then
      (digitsVal? rest).bind fun n =>
        if n ≤ 2147483647 then some (n : Int) else none
    else if c = '-' then
      (digitsVal? rest).bind fun n =>
        if n ≤ 2147483648 then some (-(n : Int)) else none
    else
      (digitsVal? (c :: rest)).bind fun n =>
        if n ≤ 2147483647 then some (n : Int) else none

/-- QueryCondition (main.rs 148-163): key, value literal, operator,
    each a plain string. -/
structure QueryCondition where
  key : String
  value : String
  op : String

/-- Query (main.rs 165-168): ordered list of conditions. -/
structure Query where
  conditions : List QueryCondition

/-- Outcome of evaluating a condition or a query against one document.
    The two abort constructors model the panics inside Query::matches:
    the i32-parse unwraps (lines 195-196 and 200-201) and the
    "Invalid operator" branch (line 204). -/
inductive MatchResult where
  | matched
  | notMatched
  | abortIntParse
  | abortInvalidOp
deriving DecidableEq

/-- The resolved value of one condition: the key is split on the dot and
    walked by get_value_from_doc (main.rs 173-180). -/
def resolveCondValue (doc : Value) (c : QueryCondition) : Value :=
  get_value_from_doc doc (splitDot c.key)

/-- One iteration of the loop body of Query::matches (main.rs 172-208):
    resolve, Null short-circuits to false, then dispatch on the operator. -/
def evalCondition (doc : Value) (c : QueryCondition) : MatchResult :=
  if (resolveCondValue doc c).isNull then .notMatched
  else if c.op = "=" then
    match resolveCondValue doc c with
    | .str s => if s = c.value then .matched else .notMatched
    | _ => .notMatched
  else if c.op = ">" then
    match parseI32 (trimQuotes (valueToString (resolveCondValue doc c))),
        parseI32 c.value with
    | some lhs, some rhs => if lhs > rhs then .matched else .notMatched
    | _, _ => .abortIntParse
  else if c.op = "<" then
    match parseI32 (trimQuotes (valueToString (resolveCondValue doc c))),
        parseI32 c.value with
    | some lhs, some rhs => if lhs < rhs then .matched else .notMatched
    | _, _ => .abortIntParse
  else .abortInvalidOp

/-- Conjunction over the conditions, short-circuiting on the first result
    that is not .matched (main.rs 171-211). -/
def matchesAux (doc : Value) : List QueryCondition → MatchResult
  | [] => .matched
  | c :: rest =>
    match evalCondition doc c with
    | .matched => matchesAux doc rest
    | r => r

/-- Query::matches. -/
def Query.matches (q : Query) (doc : Value) : MatchResult :=
  matchesAux doc q.conditions

/-- str::trim_start. -/
def trimLeftChars (cs : List Char) : List Char := cs.dropWhile Char.isWhitespace

/-- Characters a bare (unquoted) token may contain: alphanumerics and the
    dot (main.rs 225-227). -/
def isTokenChar (c : Char) : Bool := c.isAlphanum || c = '.'

/-- lex_string (main.rs 214-234): trim leading whitespace; a leading quote
    starts a quoted token running to the next quote (unterminated is an
    error); otherwise a maximal nonempty run of token characters. Returns
    the token and the remaining input. -/
def lexString (input : List Char) : Except String (List Char × List Char) :=
  match trimLeftChars input with
  | [] => .error "No string found"
  | c :: rest =>
    if c = quoteChar then
      match rest.findIdx? (· == quoteChar) with
      | none => .error "Expected end of quoted string"
      | some i => .ok (rest.take i, rest.drop (i + 1))
    else if ((c :: rest).takeWhile isTokenChar).isEmpty then
      .error "No string found"
    else .ok ((c :: rest).takeWhile isTokenChar, (c :: rest).dropWhile isTokenChar)

/-- Operator detection (main.rs 249-256): the head character of the
    already-trimmed remainder; a '>' or '<' is consumed (and the rest
    trimmed again), anything else leaves the input alone under "=". -/
def opSplit : List Char → String × List Char
  | '>' :: rest => (">", trimLeftChars rest)
  | '<' :: rest => ("<", trimLeftChars rest)
  | other => ("=", other)

/-- The key rewriting of parse_query line 261: split('.') followed by
    collect::<String>, which concatenates the segments and thereby drops
    every dot from the key. -/
def joinKey (key : List Char) : String :=
  String.join (splitDot (String.mk key))

/-- The parse_query loop (main.rs 240-264). Fuel decreases every
    iteration; since each iteration consumes at least the key token and
    the colon, input length + 1 fuel is never exhausted, and the
    fuel-exhaustion error is unreachable from parse_query. -/
def parseQueryAux : Nat → List Char → List QueryCondition →
    Except String (List QueryCondition)
  | 0, _, _ => .error "insufficient fuel"
  | f + 1, query, acc =>
    if query.isEmpty then .ok acc
    else
      match lexString query with
      | .error e => .error e
      | .ok (key, remaining) =>
        match trimLeftChars remaining with
        | ':' :: afterColon =>
          match lexString (opSplit (trimLeftChars afterColon)).2 with
          | .error e => .error e
          | .ok (value, remaining2) =>
            parseQueryAux f (trimLeftChars remaining2)
              (acc ++ [⟨joinKey key, String.mk value,
                (opSplit (trimLeftChars afterColon)).1⟩])
        | _ => .error "Expected colon"

/-- parse_query (main.rs 236-267). -/
def parse_query (q : String) : Except String Query :=
  match parseQueryAux (q.length + 1) (trimLeftChars q.toList) [] with
  | .ok conds => .ok ⟨conds⟩
  | .error e => .error e

/-- Stored bytes up to JSON parseability: some v for bytes that
    deserialize to the value v, none for unparsable bytes. -/
abbrev Raw := Option Value

/-- The key-value engine's contents: records in iteration order, keys
    unique (rocksdb is a map). -/
abbrev Store := List (String × Raw)

/-- Engine point write of a fresh key (ids are fresh uuids, so no
    overwrite case arises in scope). -/
def dbPut (store : Store) (id : String) (raw : Raw) : Store :=
  store ++ [(id, raw)]

/-- Engine point read. -/
def dbGet (store : Store) (id : String) : Option Raw :=
  (store.find? (fun e => e.1 == id)).map (·.2)

/-- Server::add_document (main.rs 31-44): serialize the document (which
    cannot fail for a value tree) and write it under the fresh id. -/
def add_document (store : Store) (id : String) (document : Value) : Store :=
  dbPut store id (some document)

/-- serde_json::from_str::<HashMap<String,String>> applied to the bytes of
    a stored value: succeeds exactly when the value is an object all of
    whose fields are strings. -/
def fieldsAsStringMap : List (String × Value) → Option (List (String × String))
  | [] => some []
  | (k, Value.str s) :: rest => (fieldsAsStringMap rest).map ((k, s) :: ·)
  | _ => none

/-- Top level of the HashMap-typed deserialization. -/
def valueAsStringMap : Value → Option (List (String × String))
  | .obj fields => fieldsAsStringMap fields
  | _ => none

/-- Outcome of get_document_by_id. The abort constructors model the two
    unwraps of main.rs 64-72: line 68 aborts when the id is absent (no
    NotFound outcome is ever produced), and line 70 aborts when the bytes
    do not deserialize as a HashMap of strings. -/
inductive GetResult where
  | ok (doc : List (String × String))
  | abortAbsent
  | abortDeser
deriving DecidableEq

/-- Server::get_document_by_id (main.rs 64-72). -/
def get_document_by_id (store : Store) (id : String) : GetResult :=
  match dbGet store id with
  | none => .abortAbsent
  | some none => .abortDeser
  | some (some v) =>
    match valueAsStringMap v with
    | none => .abortDeser
    | some m => .ok m

/-- Outcome of a search request (main.rs 74-127). badRequest is the 400
    reply for a parse error; deserError is the 500 reply for a record
    whose bytes fail to deserialize; the abort constructors model the
    panics escaping Query::matches; ok carries the matched (id, document)
    pairs of the 200 reply. -/
inductive SearchOutcome where
  | badRequest (msg : String)
  | deserError
  | abortEval
  | abortOp
  | ok (docs : List (String × Value))

/-- The scan loop of search_documents (main.rs 90-117): in iteration
    order, deserialize (failure ends the whole request with the error
    reply), evaluate, and append matches. -/
def scanLoop (query : Query) : Store → List (String × Value) → SearchOutcome
  | [], acc => .ok acc
  | (key, raw) :: rest, acc =>
    match raw with
    | none => .deserError
    | some document =>
      match query.matches document with
      | .matched => scanLoop query rest (acc ++ [(key, document)])
      | .notMatched => scanLoop query rest acc
      | .abortIntParse => .abortEval
      | .abortInvalidOp => .abortOp

/-- A string made of one double-quote character, for building query texts
    containing quoted tokens. -/
def dquote : String := String.mk [quoteChar]

/-- Server::search_documents (main.rs 74-127). -/
def search_documents (store : Store) (q : String) : SearchOutcome :=
  match parse_query q with
  | .error e => .badRequest ("Invalid query: " ++ e)
  | .ok query => scanLoop query store []

end RusticDB


namespace RusticDB

/-- Claim C1: the claim expects an ordering comparison with an unparsable
    operand to be reported as a server-error outcome and never silently
    become notMatched. The code instead aborts: at document
    obj [(age, str abc)] with condition age > 30 the i32-parse unwrap
    aborts the process (abortIntParse / abortEval), so no error reply is
    ever produced for the request; and at document obj [(age, null)] the
    resolved value, whose textual form fails the integer parse, is
    silently short-circuited to notMatched by the null check. -/
theorem c1_ordering_unparsable_aborts :
    evalCondition (Value.obj [("age", Value.str "abc")]) ⟨"age", "30", ">"⟩ =
      .abortIntParse ∧
    search_documents [("id1", some (Value.obj [("age", Value.str "abc")]))]
      "age:>30" = .abortEval ∧
    evalCondition (Value.obj [("age", Value.null)]) ⟨"age", "30", ">"⟩ =
      .notMatched ∧
    parseI32 (trimQuotes (valueToString (resolveCondValue
      (Value.obj [("age", Value.null)]) ⟨"age", "30", ">"⟩))) = none :=
  ⟨rfl, rfl, rfl, rfl⟩

/-- Claim C2: the claim expects the condition compiled from path token
    a.b to descend into key a and then key b. The code's parse_query
    instead concatenates the dot-split segments back into the single key
    ab (collect into String, main.rs 261), so the compiled condition
    looks up the top-level key ab: it does not match the nested document
    obj [(a, obj [(b, str x)])], and it does match the flat document
    obj [(ab, str x)]. -/
theorem c2_dotted_path_collapsed :
    parse_query ("a.b:" ++ dquote ++ "x" ++ dquote) =
      .ok ⟨[⟨"ab", "x", "="⟩]⟩ ∧
    Query.matches ⟨[⟨"ab", "x", "="⟩]⟩
      (Value.obj [("a", Value.obj [("b", Value.str "x")])]) = .notMatched ∧
    Query.matches ⟨[⟨"ab", "x", "="⟩]⟩
      (Value.obj [("ab", Value.str "x")]) = .matched :=
  ⟨rfl, rfl, rfl⟩

/-- Claim C3: the claim expects get after put to return any stored
    document unchanged. The code's get_document_by_id deserializes the
    stored bytes as a HashMap of string to string, so any document that
    is not a flat all-string object fails that typed parse and the unwrap
    aborts: storing obj [(age, num 30)] and reading it back aborts, as
    does storing the bare string hello. -/
theorem c3_roundtrip_fails :
    get_document_by_id
      (add_document [] "id0" (Value.obj [("age", Value.num 30)])) "id0" =
      .abortDeser ∧
    get_document_by_id (add_document [] "id1" (Value.str "hello")) "id1" =
      .abortDeser :=
  ⟨rfl, rfl⟩

/-- Claim C4: the claim expects a typed NotFound outcome for an unused id
    and a typed DeserializationError outcome for unparsable bytes. The
    code's get_document_by_id instead aborts in both cases: the unwrap on
    the absent record (main.rs 68) and the unwrap on the failed parse
    (main.rs 70) are process aborts, and no typed outcome is produced. -/
theorem c4_get_aborts_instead_of_typed_outcomes :
    get_document_by_id [] "missing" = .abortAbsent ∧
    get_document_by_id [("id0", (none : Raw))] "id0" = .abortDeser :=
  ⟨rfl, rfl⟩

/-- Claim C5: for an Equals condition, a string resolved value matches
    exactly when it equals the literal (byte-for-byte), and a present
    (non-null) non-string resolved value yields notMatched, not an
    error. -/
theorem c5_equals_semantics (doc : Value) (c : QueryCondition)
    (hop : c.op = "=") :
    (∀ s, resolveCondValue doc c = .str s →
        evalCondition doc c =
          (if s = c.value then MatchResult.matched else .notMatched)) ∧
    (resolveCondValue doc c ≠ .null →
        (∀ s, resolveCondValue doc c ≠ .str s) →
        evalCondition doc c = .notMatched) := by
  constructor
  · intro s hs
    simp [evalCondition, hs, hop, Value.isNull]
  · intro hnull hnstr
    cases h : resolveCondValue doc c with
    | null => exact absurd h hnull
    | str s => exact absurd h (hnstr s)
    | bool b => simp [evalCondition, h, hop, Value.isNull]
    | num n => simp [evalCondition, h, hop, Value.isNull]
    | arr xs => simp [evalCondition, h, hop, Value.isNull]
    | obj fs => simp [evalCondition, h, hop, Value.isNull]

/-- Claim C5 witness: the numeric value 30 is rejected by the Equals
    operator against the literal 30 (notMatched, not an error), by
    c5_equals_semantics at a concrete document and condition. -/
theorem c5_equals_witness :
    evalCondition (Value.obj [("age", Value.num 30)]) ⟨"age", "30", "="⟩ =
      .notMatched := by
  have hres : resolveCondValue (Value.obj [("age", Value.num 30)])
      ⟨"age", "30", "="⟩ = Value.num 30 := rfl
  refine (c5_equals_semantics (Value.obj [("age", Value.num 30)])
    ⟨"age", "30", "="⟩ rfl).2 ?_ ?_
  · rw [hres]; intro h; cases h
  · intro s; rw [hres]; intro h; cases h

/-- Claim C9: a condition whose path resolves to null (missing segment,
    non-object node, or an explicitly stored null) evaluates to
    notMatched, and any two documents resolving to null under the same
    condition are indistinguishable to that condition. -/
theorem c9_null_resolves_notMatched (doc : Value) (c : QueryCondition)
    (h : resolveCondValue doc c = .null) :
    evalCondition doc c = .notMatched ∧
    ∀ doc2 : Value, resolveCondValue doc2 c = .null →
      evalCondition doc c = evalCondition doc2 c := by
  have h1 : evalCondition doc c = .notMatched := by
    simp [evalCondition, h, Value.isNull]
  refine ⟨h1, fun doc2 h2 => ?_⟩
  have h3 : evalCondition doc2 c = .notMatched := by
    simp [evalCondition, h2, Value.isNull]
  rw [h1, h3]

/-- Claim C9 witness: an explicitly null field and a missing field both
    yield notMatched and are indistinguishable, by
    c9_null_resolves_notMatched at the documents obj [(a, null)] and
    obj []. -/
theorem c9_null_witness :
    evalCondition (Value.obj [("a", Value.null)]) ⟨"a", "x", "="⟩ =
      .notMatched ∧
    evalCondition (Value.obj [("a", Value.null)]) ⟨"a", "x", "="⟩ =
      evalCondition (Value.obj []) ⟨"a", "x", "="⟩ := by
  have h := c9_null_resolves_notMatched (Value.obj [("a", Value.null)])
    ⟨"a", "x", "="⟩ rfl
  exact ⟨h.1, h.2 (Value.obj []) rfl⟩

end RusticDB

namespace RusticDB

/-- The scan over deserializable records that all match appends them all
    in order. -/
theorem scanLoop_all_matched (query : Query) (docs : List (String × Value))
    (acc : List (String × Value))
    (h : ∀ e ∈ docs, query.matches e.2 = .matched) :
    scanLoop query (docs.map (fun e => (e.1, some e.2))) acc =
      .ok (acc ++ docs) := by
  induction docs generalizing acc with
  | nil => simp [scanLoop]
  | cons e rest ih =>
    obtain ⟨k, v⟩ := e
    have hv : query.matches v = .matched := h (k, v) (by simp)
    have hr : ∀ x ∈ rest, query.matches x.2 = .matched :=
      fun x hx => h x (by simp [hx])
    simp only [List.map_cons, scanLoop, hv]
    rw [ih (acc ++ [(k, v)]) hr]
    simp

/-- Claim C6: the empty query string compiles to a Query with zero
    conditions, a zero-condition query matches every document, and the
    empty-string search over any store of deserializable records returns
    every stored document. -/
theorem c6_empty_query_matches_all :
    parse_query "" = .ok ⟨[]⟩ ∧
    (∀ doc : Value, Query.matches ⟨[]⟩ doc = .matched) ∧
    ∀ docs : List (String × Value),
      search_documents (docs.map (fun e => (e.1, some e.2))) "" = .ok docs := by
  refine ⟨rfl, fun doc => rfl, fun docs => ?_⟩
  show scanLoop ⟨[]⟩ (docs.map (fun e => (e.1, some e.2))) [] = .ok docs
  simpa using scanLoop_all_matched ⟨[]⟩ docs [] (fun e _ => rfl)

end RusticDB

namespace RusticDB

/-- Reaching an unparsable record ends the whole scan with the single
    deserialization error, whatever was already accumulated and whatever
    records follow. -/
theorem scanLoop_deser_aborts (query : Query) (pre : List (String × Value))
    (id : String) (post : Store) (acc : List (String × Value))
    (hpre : ∀ e ∈ pre,
      query.matches e.2 = .matched ∨ query.matches e.2 = .notMatched) :
    scanLoop query (pre.map (fun e => (e.1, some e.2)) ++ (id, none) :: post)
      acc = .deserError := by
  induction pre generalizing acc with
  | nil => rfl
  | cons e rest ih =>
    obtain ⟨k, v⟩ := e
    have hr : ∀ x ∈ rest,
        query.matches x.2 = .matched ∨ query.matches x.2 = .notMatched :=
      fun x hx => hpre x (by simp [hx])
    rcases hpre (k, v) (by simp) with hm | hm <;>
      simp only [List.map_cons, List.cons_append, scanLoop, hm] <;>
      exact ih _ hr

/-- Claim C8: once a record whose bytes fail to deserialize is reached,
    the search request reports the single deserialization error and
    returns no documents: any number of earlier matching or non-matching
    records and any records after the corrupt one produce the error
    outcome, never a truncated document list. -/
theorem c8_scan_abort_no_partial (qs : String) (query : Query)
    (hq : parse_query qs = .ok query)
    (pre : List (String × Value)) (id : String) (post : Store)
    (hpre : ∀ e ∈ pre,
      query.matches e.2 = .matched ∨ query.matches e.2 = .notMatched) :
    search_documents (pre.map (fun e => (e.1, some e.2)) ++ (id, none) :: post)
      qs = .deserError := by
  unfold search_documents
  rw [hq]
  exact scanLoop_deser_aborts query pre id post [] hpre

/-- Claim C8 witness: with the empty query, a good record before a
    corrupt one and another good record after it, the request reports the
    deserialization error, by c8_scan_abort_no_partial at a concrete
    store. -/
theorem c8_scan_abort_witness :
    search_documents
      ([("a", Value.obj [("name", Value.str "Alice")])].map
        (fun e => (e.1, some e.2)) ++
        ("b", (none : Raw)) :: [("c", some (Value.obj []))]) "" =
      .deserError :=
  c8_scan_abort_no_partial "" ⟨[]⟩ rfl
    [("a", Value.obj [("name", Value.str "Alice")])] "b"
    [("c", some (Value.obj []))] (fun _ _ => Or.inl rfl)

end RusticDB

namespace RusticDB

/-- Claim C7 counterexample: in the query text age: >30 the character
    immediately following the colon is a space, so under the claim the
    value token would be parsed under the implicit = operator (and the
    leading greater-than sign would make the lexer fail); the compiler
    instead skips the whitespace and produces the GreaterThan operator. -/
theorem c7_ws_counterexample :
    parse_query "age: >30" = .ok ⟨[⟨"age", "30", ">"⟩]⟩ ∧
    (">" : String) ≠ "=" :=
  ⟨rfl, by decide⟩

/-- Token characters (alphanumerics and the dot) are never whitespace. -/
theorem isTokenChar_not_ws (c : Char) (h : isTokenChar c = true) :
    c.isWhitespace = false := by
  by_contra hw
  rw [Bool.not_eq_false] at hw
  have hc : ((c = ' ' ∨ c = '\t') ∨ c = '\r') ∨ c = '\n' := by
    simpa [Char.isWhitespace] using hw
  rcases hc with ((rfl | rfl) | rfl) | rfl <;> exact absurd h (by decide)

/-- trim_start does nothing on a non-whitespace head. -/
theorem trimLeft_cons_not_ws (c : Char) (cs : List Char)
    (h : c.isWhitespace = false) :
    trimLeftChars (c :: cs) = c :: cs := by
  simp [trimLeftChars, List.dropWhile_cons, h]

/-- trim_start consumes any leading run of whitespace. -/
theorem trimLeft_ws_append (ws cs : List Char) :
    (∀ c ∈ ws, c.isWhitespace = true) →
    trimLeftChars (ws ++ cs) = trimLeftChars cs := by
  induction ws with
  | nil => intro _; rfl
  | cons a t ih =>
    intro h
    have ha := h a (by simp)
    rw [List.cons_append]
    have hstep : trimLeftChars (a :: (t ++ cs)) = trimLeftChars (t ++ cs) := by
      simp [trimLeftChars, List.dropWhile_cons, ha]
    rw [hstep]
    exact ih (fun c hc => h c (by simp [hc]))

/-- A maximal token run followed by a non-token boundary splits exactly at
    the boundary. -/
theorem token_run_split (tok rest : List Char) :
    (∀ c ∈ tok, isTokenChar c = true) →
    (∀ c cs, rest = c :: cs → isTokenChar c = false) →
    (tok ++ rest).takeWhile isTokenChar = tok ∧
      (tok ++ rest).dropWhile isTokenChar = rest := by
  induction tok with
  | nil =>
    intro _ hrest
    cases rest with
    | nil => simp
    | cons c cs =>
      have hc := hrest c cs rfl
      simp [List.takeWhile_cons, List.dropWhile_cons, hc]
  | cons a t ih =>
    intro htok hrest
    have ha := htok a (by simp)
    have iht := ih (fun c hc => htok c (by simp [hc])) hrest
    simp [List.cons_append, List.takeWhile_cons, List.dropWhile_cons, ha,
      iht.1, iht.2]

/-- lex_string on a nonempty bare token followed by a non-token boundary
    returns the token and the boundary. -/
theorem lexString_token (tok rest : List Char) (hne : tok ≠ [])
    (htok : ∀ c ∈ tok, isTokenChar c = true)
    (hrest : ∀ c cs, rest = c :: cs → isTokenChar c = false) :
    lexString (tok ++ rest) = .ok (tok, rest) := by
  obtain ⟨a, t, rfl⟩ := List.exists_cons_of_ne_nil hne
  have ha := htok a (by simp)
  have haw : a.isWhitespace = false := isTokenChar_not_ws a ha
  have haq : ¬(a = quoteChar) := fun hq => absurd (hq ▸ ha) (by decide)
  have hsplit := token_run_split (a :: t) rest htok hrest
  have ht := hsplit.1
  have hd := hsplit.2
  rw [List.cons_append] at ht hd
  unfold lexString
  rw [List.cons_append, trimLeft_cons_not_ws _ _ haw]
  simp [haq, ht, hd]

/-- The first closing quote after a quote-free run sits at the run's
    length. -/
theorem findIdx_quote (content rest : List Char) (i : Nat) :
    (∀ c ∈ content, (c == quoteChar) = false) →
    List.findIdx? (· == quoteChar) (content ++ quoteChar :: rest) i =
      some (content.length + i) := by
  induction content generalizing i with
  | nil =>
    intro _
    simp [List.findIdx?_cons]
  | cons a t ih =>
    intro hq
    have ha := hq a (by simp)
    rw [List.cons_append, List.findIdx?_cons, if_neg (by simp [ha])]
    rw [ih (i + 1) (fun c hc => hq c (by simp [hc]))]
    rw [List.length_cons]
    congr 1
    omega

/-- Dropping past the closing quote of a quote-free run leaves the tail. -/
theorem drop_after_quote (content rest : List Char) :
    (content ++ quoteChar :: rest).drop (content.length + 1) = rest := by
  induction content with
  | nil => rfl
  | cons a t ih =>
    rw [List.cons_append, List.length_cons, List.drop_succ_cons]
    exact ih

/-- lex_string on a quoted token with quote-free content returns the
    content and what follows the closing quote. -/
theorem lexString_quoted (content rest : List Char)
    (hq : ∀ c ∈ content, (c == quoteChar) = false) :
    lexString (quoteChar :: (content ++ quoteChar :: rest)) =
      .ok (content, rest) := by
  have hqw : quoteChar.isWhitespace = false := by decide
  unfold lexString
  rw [trimLeft_cons_not_ws _ _ hqw]
  simp [findIdx_quote content rest 0 hq, List.take_left, drop_after_quote]

/-- One full condition step of the parser loop: after the key token and
    the colon, the operator and the position where the value token is
    lexed are exactly what operator detection on the whitespace-trimmed
    remainder yields. -/
theorem parseQueryAux_one_cond (f : Nat) (acc : List QueryCondition)
    (key afterColon : List Char) (hkey : key ≠ [])
    (hkeyc : ∀ c ∈ key, isTokenChar c = true) :
    parseQueryAux (f + 1) (key ++ ':' :: afterColon) acc =
      match lexString (opSplit (trimLeftChars afterColon)).2 with
      | .error e => .error e
      | .ok (value, remaining2) =>
        parseQueryAux f (trimLeftChars remaining2)
          (acc ++ [⟨joinKey key, String.mk value,
            (opSplit (trimLeftChars afterColon)).1⟩]) := by
  have hlex : lexString (key ++ ':' :: afterColon) = .ok (key, ':' :: afterColon) :=
    lexString_token key (':' :: afterColon) hkey hkeyc
      (fun c cs h => by injection h with h1 h2; rw [← h1]; decide)
  have hnil : (key ++ ':' :: afterColon).isEmpty = false := by
    obtain ⟨a, t, rfl⟩ := List.exists_cons_of_ne_nil hkey
    simp
  have htr : trimLeftChars (':' :: afterColon) = ':' :: afterColon :=
    trimLeft_cons_not_ws _ _ (by decide)
  rw [parseQueryAux]
  simp only [hnil, hlex, htr]
  rfl

/-- A query text made of one key token, a colon and a remainder whose
    operator detection leads to a value token ending the input compiles to
    exactly that one condition. -/
theorem parse_query_single_cond (key afterColon value : List Char)
    (hkey : key ≠ []) (hkeyc : ∀ c ∈ key, isTokenChar c = true)
    (hlex : lexString (opSplit (trimLeftChars afterColon)).2 =
      .ok (value, [])) :
    parse_query (String.mk (key ++ ':' :: afterColon)) =
      .ok ⟨[⟨joinKey key, String.mk value,
        (opSplit (trimLeftChars afterColon)).1⟩]⟩ := by
  obtain ⟨k0, kt, rfl⟩ := List.exists_cons_of_ne_nil hkey
  have hk0 := hkeyc k0 (by simp)
  show (match parseQueryAux (((k0 :: kt) ++ ':' :: afterColon).length + 1)
      (trimLeftChars ((k0 :: kt) ++ ':' :: afterColon)) [] with
    | .ok conds => Except.ok (Query.mk conds)
    | .error e => Except.error e) =
    .ok ⟨[⟨joinKey (k0 :: kt), String.mk value,
      (opSplit (trimLeftChars afterColon)).1⟩]⟩
  have htrim : trimLeftChars ((k0 :: kt) ++ ':' :: afterColon) =
      (k0 :: kt) ++ ':' :: afterColon :=
    trimLeft_cons_not_ws k0 (kt ++ ':' :: afterColon)
      (isTokenChar_not_ws _ hk0)
  rw [htrim,
    parseQueryAux_one_cond (((k0 :: kt) ++ ':' :: afterColon).length) []
      (k0 :: kt) afterColon (List.cons_ne_nil k0 kt) hkeyc,
    hlex]
  rfl

/-- Operator detection emits GreaterThan on a leading greater-than sign. -/
theorem opSplit_gt (cs : List Char) :
    opSplit ('>' :: cs) = (">", trimLeftChars cs) := rfl

/-- Operator detection emits LessThan on a leading less-than sign. -/
theorem opSplit_lt (cs : List Char) :
    opSplit ('<' :: cs) = ("<", trimLeftChars cs) := rfl

/-- Operator detection leaves any other head character in place under the
    implicit = operator. -/
theorem opSplit_default (c : Char) (cs : List Char)
    (h1 : c ≠ '>') (h2 : c ≠ '<') :
    opSplit (c :: cs) = ("=", c :: cs) := by
  unfold opSplit
  split <;> simp_all

/-- Claim C7 amended: during compilation of every condition, operator
    detection inspects the first character after the colon once leading
    whitespace has been skipped: for every key token, every whitespace
    run after the colon and every value token, a greater-than sign there
    is the GreaterThan operator, a less-than sign is the LessThan
    operator, and any other character begins the value token parsed under
    the implicit = operator, whether it opens a bare token or a quoted
    one. -/
theorem c7_amended_ws_skipped (key ws value : List Char)
    (hkey : key ≠ []) (hkeyc : ∀ c ∈ key, isTokenChar c = true)
    (hws : ∀ c ∈ ws, c.isWhitespace = true)
    (hval : value ≠ []) (hvalc : ∀ c ∈ value, isTokenChar c = true) :
    parse_query (String.mk (key ++ ':' :: (ws ++ '>' :: value))) =
      .ok ⟨[⟨joinKey key, String.mk value, ">"⟩]⟩ ∧
    parse_query (String.mk (key ++ ':' :: (ws ++ '<' :: value))) =
      .ok ⟨[⟨joinKey key, String.mk value, "<"⟩]⟩ ∧
    parse_query (String.mk (key ++ ':' :: (ws ++ value))) =
      .ok ⟨[⟨joinKey key, String.mk value, "="⟩]⟩ ∧
    parse_query (String.mk (key ++ ':' ::
        (ws ++ quoteChar :: (value ++ [quoteChar])))) =
      .ok ⟨[⟨joinKey key, String.mk value, "="⟩]⟩ := by
  obtain ⟨v0, vt, rfl⟩ := List.exists_cons_of_ne_nil hval
  have hv0 := hvalc v0 (by simp)
  have hvw : v0.isWhitespace = false := isTokenChar_not_ws v0 hv0
  have hvtrim : trimLeftChars (v0 :: vt) = v0 :: vt :=
    trimLeft_cons_not_ws _ _ hvw
  have hvlex : lexString ((v0 :: vt) ++ ([] : List Char)) =
      .ok (v0 :: vt, []) :=
    lexString_token (v0 :: vt) [] (by simp) hvalc (fun c cs h => nomatch h)
  rw [List.append_nil] at hvlex
  refine ⟨?_, ?_, ?_, ?_⟩
  · have hop : opSplit (trimLeftChars (ws ++ '>' :: v0 :: vt)) =
        (">", v0 :: vt) := by
      rw [trimLeft_ws_append _ _ hws,
        trimLeft_cons_not_ws '>' (v0 :: vt) (by decide), opSplit_gt, hvtrim]
    have h := parse_query_single_cond key (ws ++ '>' :: v0 :: vt) (v0 :: vt)
      hkey hkeyc (by rw [hop]; exact hvlex)
    rw [hop] at h
    exact h
  · have hop : opSplit (trimLeftChars (ws ++ '<' :: v0 :: vt)) =
        ("<", v0 :: vt) := by
      rw [trimLeft_ws_append _ _ hws,
        trimLeft_cons_not_ws '<' (v0 :: vt) (by decide), opSplit_lt, hvtrim]
    have h := parse_query_single_cond key (ws ++ '<' :: v0 :: vt) (v0 :: vt)
      hkey hkeyc (by rw [hop]; exact hvlex)
    rw [hop] at h
    exact h
  · have hne1 : v0 ≠ '>' := fun h => absurd (h ▸ hv0) (by decide)
    have hne2 : v0 ≠ '<' := fun h => absurd (h ▸ hv0) (by decide)
    have hop : opSplit (trimLeftChars (ws ++ v0 :: vt)) =
        ("=", v0 :: vt) := by
      rw [trimLeft_ws_append _ _ hws, hvtrim, opSplit_default v0 vt hne1 hne2]
    have h := parse_query_single_cond key (ws ++ v0 :: vt) (v0 :: vt)
      hkey hkeyc (by rw [hop]; exact hvlex)
    rw [hop] at h
    exact h
  · have hnq : ∀ c ∈ v0 :: vt, (c == quoteChar) = false := by
      intro c hc
      have htc := hvalc c hc
      exact beq_eq_false_iff_ne.mpr (fun h => absurd (h ▸ htc) (by decide))
    have hop : opSplit (trimLeftChars
          (ws ++ quoteChar :: ((v0 :: vt) ++ [quoteChar]))) =
        ("=", quoteChar :: ((v0 :: vt) ++ [quoteChar])) := by
      rw [trimLeft_ws_append _ _ hws,
        trimLeft_cons_not_ws quoteChar ((v0 :: vt) ++ [quoteChar]) (by decide),
        opSplit_default quoteChar ((v0 :: vt) ++ [quoteChar]) (by decide)
          (by decide)]
    have hlexq : lexString (quoteChar :: ((v0 :: vt) ++ quoteChar :: [])) =
        .ok (v0 :: vt, []) := lexString_quoted (v0 :: vt) [] hnq
    have h := parse_query_single_cond key
      (ws ++ quoteChar :: ((v0 :: vt) ++ [quoteChar])) (v0 :: vt)
      hkey hkeyc (by rw [hop]; exact hlexq)
    rw [hop] at h
    exact h

/-- Claim C7 amended witness: the LessThan operator after a space, by
    c7_amended_ws_skipped at concrete tokens. -/
theorem c7_amended_witness :
    parse_query "age: <30" = .ok ⟨[⟨"age", "30", "<"⟩]⟩ :=
  (c7_amended_ws_skipped ['a', 'g', 'e'] [' '] ['3', '0'] (by decide)
    (by decide) (by decide) (by decide) (by decide)).2.1
end RusticDB

namespace RusticDB

/-- Operator detection only ever emits =, GreaterThan or LessThan. -/
theorem opSplit_op_cases (cs : List Char) :
    (opSplit cs).1 = "=" ∨ (opSplit cs).1 = ">" ∨ (opSplit cs).1 = "<" := by
  unfold opSplit
  split <;> simp

/-- Every condition accumulated by the parser loop carries one of the
    three recognized operators. -/
theorem parseQueryAux_ops (f : Nat) :
    ∀ (q : List Char) (acc conds : List QueryCondition),
      (∀ c ∈ acc, c.op = "=" ∨ c.op = ">" ∨ c.op = "<") →
      parseQueryAux f q acc = .ok conds →
      ∀ c ∈ conds, c.op = "=" ∨ c.op = ">" ∨ c.op = "<" := by
  induction f with
  | zero =>
    intro q acc conds hacc h
    exact absurd h (by simp [parseQueryAux])
  | succ f ih =>
    intro q acc conds hacc h
    rw [parseQueryAux] at h
    split at h
    · cases h
      exact hacc
    · split at h
      · cases h
      · split at h
        · split at h
          · cases h
          · refine ih _ _ _ ?_ h
            intro c hc
            rcases List.mem_append.mp hc with hc | hc
            · exact hacc c hc
            · rw [List.mem_singleton.mp hc]
              exact opSplit_op_cases _
        · cases h

/-- A condition with a recognized operator never reaches the invalid
    operator abort. -/
theorem evalCondition_op_no_invalid (doc : Value) (c : QueryCondition)
    (h : c.op = "=" ∨ c.op = ">" ∨ c.op = "<") :
    evalCondition doc c ≠ .abortInvalidOp := by
  unfold evalCondition
  rcases h with h | h | h
  · rw [h]
    split
    · simp
    · rw [if_pos rfl]
      split <;> first | (split <;> simp) | simp
  · rw [h]
    split
    · simp
    · rw [if_neg (by decide), if_pos rfl]
      split <;> first | (split <;> simp) | simp
  · rw [h]
    split
    · simp
    · rw [if_neg (by decide), if_neg (by decide), if_pos rfl]
      split <;> first | (split <;> simp) | simp

/-- A query all of whose conditions carry recognized operators never
    reaches the invalid operator abort. -/
theorem matchesAux_no_invalid (doc : Value) (conds : List QueryCondition)
    (h : ∀ c ∈ conds, c.op = "=" ∨ c.op = ">" ∨ c.op = "<") :
    matchesAux doc conds ≠ .abortInvalidOp := by
  induction conds with
  | nil => simp [matchesAux]
  | cons c rest ih =>
    have hc := evalCondition_op_no_invalid doc c (h c (by simp))
    have hr := ih (fun x hx => h x (by simp [hx]))
    simp only [matchesAux]
    cases he : evalCondition doc c with
    | matched => exact hr
    | notMatched => simp
    | abortIntParse => simp
    | abortInvalidOp => exact absurd he hc

/-- Claim C10: every query compiled by parse_query carries only the
    operators =, GreaterThan and LessThan, and evaluating a query whose
    conditions all carry those operators never reaches the Invalid
    operator abort branch of Query::matches. -/
theorem c10_compiled_ops_safe :
    (∀ (q : String) (query : Query), parse_query q = .ok query →
        ∀ c ∈ query.conditions, c.op = "=" ∨ c.op = ">" ∨ c.op = "<") ∧
    ∀ (query : Query) (doc : Value),
      (∀ c ∈ query.conditions, c.op = "=" ∨ c.op = ">" ∨ c.op = "<") →
      query.matches doc ≠ .abortInvalidOp := by
  constructor
  · intro q query hq
    unfold parse_query at hq
    cases hpa : parseQueryAux (q.length + 1) (trimLeftChars q.toList) [] with
    | ok conds =>
      rw [hpa] at hq
      cases hq
      exact parseQueryAux_ops _ _ _ _ (by simp) hpa
    | error e =>
      rw [hpa] at hq
      cases hq
  · intro query doc hops
    exact matchesAux_no_invalid doc query.conditions hops

/-- Claim C10 witness: the compiled query age:30 evaluates on the empty
    object without reaching the invalid operator abort, by
    c10_compiled_ops_safe. -/
theorem c10_compiled_ops_witness :
    Query.matches ⟨[⟨"age", "30", "="⟩]⟩ (Value.obj []) ≠ .abortInvalidOp :=
  c10_compiled_ops_safe.2 ⟨[⟨"age", "30", "="⟩]⟩ (Value.obj [])
    (c10_compiled_ops_safe.1 "age:30" ⟨[⟨"age", "30", "="⟩]⟩ rfl)

end RusticDB
